import Mathlib

/-!
Shallow embedding of the transcoding engine of the
`eventsourcing-orjsontranscoder` repository, as implemented by the recursive
reference transcoder `OrjsonTranscoder_Recursive` in
`src/tests/test_orjson_transcoder.py`, together with the registry model.

Modelling conventions:
* Python runtime values are the inductive `PyVal`.  Values of user-defined
  classes (instances of registered custom types such as `MyInt`,
  `CustomType1`, ...) are modelled by `PyVal.vobj cls state`: the class
  identity plus the wrapped state.  A strict subclass of a native type
  (e.g. `MyInt(int)`) is a `vobj`, since its runtime type differs from the
  native type.
* Floating-point values are carried opaquely by their literal text: the
  engine only ever passes them through unchanged, so no arithmetic on them
  is modelled.
* The codec backend (the external `orjson` library) is modelled by its
  contract from the spec (serialize then parse is the identity on native
  value-trees): byte strings are represented by the native tree they parse
  to, and `dumpsVal` gives the concrete serialized text of a native tree,
  returning `none` exactly on the non-native shapes `orjson.dumps` rejects.
* Fallible Python code (raising `TypeError`) returns `Except TcError`.
* `encode_` takes a fuel argument bounding the recursion depth, mirroring
  the interpreter's recursion limit; registered transcodings carry
  arbitrary conversion functions, so the walk is not structurally
  terminating in general.  Fuel exhaustion is the distinguished error
  `TcError.recursionLimit`, which no claim is stated about.
-/

/-- Python runtime type tags, as used by the exact-type dispatch
`self._encoders[type(obj)]` and `self.types[obj_type]` in the source. -/
inductive PyType where
  | pyStr
  | pyInt
  | pyFloat
  | pyBool
  | pyNoneType
  | pyList
  | pyDict
  | pyTuple
  | pyCustom (clsName : String)
deriving DecidableEq, Repr

/-- Python runtime values reachable by the transcoder.  Mapping keys are
text, as required by the wire format. -/
inductive PyVal where
  | vstr (s : String)
  | vint (n : Int)
  | vfloat (lit : String)
  | vbool (b : Bool)
  | vnone
  | vlist (xs : List PyVal)
  | vdict (kvs : List (String × PyVal))
  | vtuple (xs : List PyVal)
  | vobj (clsName : String) (state : PyVal)

/-- The runtime type of a value, `type(obj)` in the source. -/
def PyVal.typeOf : PyVal → PyType
  | .vstr _ => .pyStr
  | .vint _ => .pyInt
  | .vfloat _ => .pyFloat
  | .vbool _ => .pyBool
  | .vnone => .pyNoneType
  | .vlist _ => .pyList
  | .vdict _ => .pyDict
  | .vtuple _ => .pyTuple
  | .vobj cls _ => .pyCustom cls

/-- Error taxonomy of the engine (each surfaces as a Python `TypeError`
with a distinguishing message; `recursionLimit` models the interpreter's
recursion depth limit, an artifact of the fuelled embedding). -/
inductive TcError where
  | duplicateType
  | duplicateName
  | unsupportedType
  | unknownTypeName
  | recursionLimit
deriving DecidableEq, Repr

/-- A registered transcoding: one value type, a stable wire name, and the
two conversion functions. -/
structure Transcoding where
  type : PyType
  name : String
  encode : PyVal → PyVal
  decode : PyVal → PyVal

/-- The registry state of a transcoder: the two mappings `self.types`
(type to transcoding) and `self.names` (name to transcoding), modelled as
insertion-ordered association lists with unique keys. -/
structure Transcoder where
  types : List (PyType × Transcoding)
  names : List (String × Transcoding)

/-- Lookup `self.types[t]`. -/
def Transcoder.lookupType (T : Transcoder) (t : PyType) : Option Transcoding :=
  (T.types.find? (fun p => decide (p.1 = t))).map (·.2)

/-- Lookup `self.names[n]`. -/
def Transcoder.lookupName (T : Transcoder) (n : String) : Option Transcoding :=
  (T.names.find? (fun p => decide (p.1 = n))).map (·.2)

/-- Modelled from the spec: the engine's `register` operation (implemented
in the accelerated extension module `_eventsourcing_orjsontranscoder.pyx`,
which is not under `src/`; only its callers and tests are).  Per the spec,
registering a transcoding whose type or name is already present fails with
a `DuplicateType` / `DuplicateName` condition and leaves the registry
unchanged; otherwise both mappings gain the new entry.  The result pairs
the post-call registry with the error, if any. -/
def Transcoder.registerRun (T : Transcoder) (tc : Transcoding) :
    Transcoder × Option TcError :=
  if (T.lookupType tc.type).isSome then
    (T, some .duplicateType)
  else if (T.lookupName tc.name).isSome then
    (T, some .duplicateName)
  else
    ({ types := T.types ++ [(tc.type, tc)],
       names := T.names ++ [(tc.name, tc)] }, none)

/-- Encode each element of a list with `e`, left to right, propagating the
first failure (`_encode_list` in the source builds
`[self._encode(v) for v in obj]`). -/
def encList (e : PyVal → Except TcError PyVal) :
    List PyVal → Except TcError (List PyVal)
  | [] => .ok []
  | x :: xs =>
    match e x with
    | .error err => .error err
    | .ok y =>
      match encList e xs with
      | .error err => .error err
      | .ok ys => .ok (y :: ys)

/-- Encode each value of an association list with `e`, keys unchanged,
left to right, propagating the first failure (`_encode_dict` in the source
builds a dict comprehension over `obj.items()`). -/
def encKVs (e : PyVal → Except TcError PyVal) :
    List (String × PyVal) → Except TcError (List (String × PyVal))
  | [] => .ok []
  | (k, v) :: rest =>
    match e v with
    | .error err => .error err
    | .ok w =>
      match encKVs e rest with
      | .error err => .error err
      | .ok rest2 => .ok ((k, w) :: rest2)

/-- The recursive encoding walk `OrjsonTranscoder_Recursive._encode`.
Dispatch is on the exact runtime type: `int`, `str`, `float` pass through
(`_encode_pass`); `dict` and `list` recurse into their children; any other
type is looked up in `self.types` and, when found, rewritten to the
envelope `\x7b"_type_": name, "_data_": transcoding.encode(obj)\x7d` which
is then itself re-encoded; when not found the call fails (the source
raises `TypeError: Object of type ... is not serializable`).  The fuel
argument bounds the recursion depth. -/
def encode_ (T : Transcoder) : Nat → PyVal → Except TcError PyVal
  | 0, _ => .error .recursionLimit
  | f + 1, obj =>
    match obj with
    | .vint _ => .ok obj
    | .vstr _ => .ok obj
    | .vfloat _ => .ok obj
    | .vdict kvs =>
      match encKVs (encode_ T f) kvs with
      | .error err => .error err
      | .ok kvs2 => .ok (.vdict kvs2)
    | .vlist xs =>
      match encList (encode_ T f) xs with
      | .error err => .error err
      | .ok ys => .ok (.vlist ys)
    | _ =>
      match T.lookupType obj.typeOf with
      | none => .error .unsupportedType
      | some tc =>
        encode_ T f (.vdict [("_type_", .vstr tc.name), ("_data_", tc.encode obj)])

/-- The structural envelope test of `_decode_obj`:
`set(d.keys()) == \x7b"_type_", "_data_"\x7d`.  A key set equals that two
element set exactly when every key is one of the two and both occur. -/
def isEnvelopeKeys (kvs : List (String × PyVal)) : Bool :=
  (kvs.map Prod.fst).all (fun k => k == "_type_" || k == "_data_")
    && (kvs.map Prod.fst).contains "_type_"
    && (kvs.map Prod.fst).contains "_data_"

/-- Mapping access `d[k]`: the value at the first occurrence of key `k`. -/
def dictGet (kvs : List (String × PyVal)) (k : String) : Option PyVal :=
  (kvs.find? (fun p => p.1 == k)).map (·.2)

/-- The envelope dispatch `OrjsonTranscoder_Recursive._decode_obj`, applied
to a mapping whose values are already decoded: when the key set is exactly
the envelope keys, the discriminator is looked up in `self.names` and the
transcoding's `decode` is applied to the payload; an unknown (or
non-text) discriminator fails (the source raises `TypeError: Data
serialized with name ... is not deserializable`); any other key set
returns the mapping unchanged. -/
def decode_obj (T : Transcoder) (kvs : List (String × PyVal)) :
    Except TcError PyVal :=
  if isEnvelopeKeys kvs then
    match dictGet kvs "_type_" with
    | some (.vstr t) =>
      match T.lookupName t with
      | none => .error .unknownTypeName
      | some tc => .ok (tc.decode ((dictGet kvs "_data_").getD .vnone))
    | _ => .error .unknownTypeName
  else
    .ok (.vdict kvs)

mutual

/-- The recursive decoding walk `OrjsonTranscoder_Recursive._decode` over a
parsed tree: mappings have every contained value decoded first and are then
passed to the envelope test `decode_obj` (bottom-up); lists have each
element decoded in place; everything else passes through unchanged. -/
def decodeVal (T : Transcoder) : PyVal → Except TcError PyVal
  | .vdict kvs =>
    match decodeKVs T kvs with
    | .error err => .error err
    | .ok kvs2 => decode_obj T kvs2
  | .vlist xs =>
    match decodeItems T xs with
    | .error err => .error err
    | .ok ys => .ok (.vlist ys)
  | v => .ok v

/-- Decode every element of a list, left to right. -/
def decodeItems (T : Transcoder) : List PyVal → Except TcError (List PyVal)
  | [] => .ok []
  | x :: xs =>
    match decodeVal T x with
    | .error err => .error err
    | .ok y =>
      match decodeItems T xs with
      | .error err => .error err
      | .ok ys => .ok (y :: ys)

/-- Decode every value of an association list, keys unchanged. -/
def decodeKVs (T : Transcoder) :
    List (String × PyVal) → Except TcError (List (String × PyVal))
  | [] => .ok []
  | (k, v) :: rest =>
    match decodeVal T v with
    | .error err => .error err
    | .ok w =>
      match decodeKVs T rest with
      | .error err => .error err
      | .ok rest2 => .ok ((k, w) :: rest2)

end

/-- The `TupleAsList` transcoding registered in the transcoder's
constructor: type `tuple`, name `"tuple_as_list"`, `encode` is
`list(obj)` and `decode` is `tuple(data)` (on any argument of the shape
the dispatch actually passes, i.e. a tuple resp. a list). -/
def TupleAsList : Transcoding where
  type := .pyTuple
  name := "tuple_as_list"
  encode := fun v => match v with | .vtuple xs => .vlist xs | w => w
  decode := fun v => match v with | .vlist xs => .vtuple xs | w => w

/-- The registry state established by `OrjsonTranscoder_Recursive.__init__`:
exactly `TupleAsList` is registered. -/
def transcoder0 : Transcoder where
  types := [(.pyTuple, TupleAsList)]
  names := [("tuple_as_list", TupleAsList)]

/-- Building `transcoder0` is precisely a successful registration of
`TupleAsList` into the empty registry. -/
theorem transcoder0_eq_register :
    Transcoder.registerRun ⟨[], []⟩ TupleAsList = (transcoder0, none) := rfl

/-- The `CMyIntAsInt` transcoding of `src/tests/test_application.py`:
handles the strict `int` subclass `MyInt`, with wire name
`"myint_as_int"`; `encode` unwraps to the underlying `int`, `decode`
rebuilds a `MyInt`. -/
def CMyIntAsInt : Transcoding where
  type := .pyCustom "MyInt"
  name := "myint_as_int"
  encode := fun v => match v with | .vobj _ payload => payload | w => w
  decode := fun v => .vobj "MyInt" v

/-- The constructor registry with `CMyIntAsInt` additionally registered. -/
def transcoder1 : Transcoder where
  types := [(.pyTuple, TupleAsList), (.pyCustom "MyInt", CMyIntAsInt)]
  names := [("tuple_as_list", TupleAsList), ("myint_as_int", CMyIntAsInt)]

/-- Building `transcoder1` is a successful registration of `CMyIntAsInt`
into `transcoder0`. -/
theorem transcoder1_eq_register :
    Transcoder.registerRun transcoder0 CMyIntAsInt = (transcoder1, none) := rfl

/-! ### Shape predicates over values -/

mutual

/-- Parsed native trees: exactly the shapes `orjson.loads` can produce
(text, integer, float, boolean, null, list, text-keyed mapping). -/
def isJson : PyVal → Bool
  | .vstr _ => true
  | .vint _ => true
  | .vfloat _ => true
  | .vbool _ => true
  | .vnone => true
  | .vlist xs => isJsonItems xs
  | .vdict kvs => isJsonKVs kvs
  | .vtuple _ => false
  | .vobj _ _ => false

/-- Every element is a parsed native tree. -/
def isJsonItems : List PyVal → Bool
  | [] => true
  | x :: xs => isJson x && isJsonItems xs

/-- Every mapping value is a parsed native tree. -/
def isJsonKVs : List (String × PyVal) → Bool
  | [] => true
  | (_, v) :: rest => isJson v && isJsonKVs rest

end

mutual

/-- Values built purely from the source's native scalar types
(`native_types = (str, int, float)`) and native containers, in which no
mapping has the envelope key set.  On this class, encoding under
`transcoder0` is the identity and decoding recovers the value. -/
def nativeSafe : PyVal → Bool
  | .vstr _ => true
  | .vint _ => true
  | .vfloat _ => true
  | .vlist xs => nativeSafeItems xs
  | .vdict kvs => !isEnvelopeKeys kvs && nativeSafeKVs kvs
  | _ => false

/-- Every element is `nativeSafe`. -/
def nativeSafeItems : List PyVal → Bool
  | [] => true
  | x :: xs => nativeSafe x && nativeSafeItems xs

/-- Every mapping value is `nativeSafe`. -/
def nativeSafeKVs : List (String × PyVal) → Bool
  | [] => true
  | (_, v) :: rest => nativeSafe v && nativeSafeKVs rest

end

mutual

/-- Values supported by the constructor registry `transcoder0` that round
trip: native scalars, lists, tuples and mappings of such values, where no
mapping has exactly the envelope key set (such a mapping would be
reinterpreted as an envelope on decode). -/
def safe : PyVal → Bool
  | .vstr _ => true
  | .vint _ => true
  | .vfloat _ => true
  | .vlist xs => safeItems xs
  | .vtuple xs => safeItems xs
  | .vdict kvs => !isEnvelopeKeys kvs && safeKVs kvs
  | _ => false

/-- Every element is `safe`. -/
def safeItems : List PyVal → Bool
  | [] => true
  | x :: xs => safe x && safeItems xs

/-- Every mapping value is `safe`. -/
def safeKVs : List (String × PyVal) → Bool
  | [] => true
  | (_, v) :: rest => safe v && safeKVs rest

end

mutual

/-- The encoding walk of `transcoder0` reaches a value whose runtime type
is neither in `self._encoders` nor in `self.types`: a boolean, a null, or
an instance of an unregistered class, at any depth inside lists, mappings
or tuples (the elements of a tuple are re-encoded through its envelope's
payload list, so they are reached as well). -/
def hasUnsupportedT0 : PyVal → Bool
  | .vstr _ => false
  | .vint _ => false
  | .vfloat _ => false
  | .vbool _ => true
  | .vnone => true
  | .vobj _ _ => true
  | .vlist xs => hasUnsupportedT0Items xs
  | .vtuple xs => hasUnsupportedT0Items xs
  | .vdict kvs => hasUnsupportedT0KVs kvs

/-- Some element makes `hasUnsupportedT0` true. -/
def hasUnsupportedT0Items : List PyVal → Bool
  | [] => false
  | x :: xs => hasUnsupportedT0 x || hasUnsupportedT0Items xs

/-- Some mapping value makes `hasUnsupportedT0` true. -/
def hasUnsupportedT0KVs : List (String × PyVal) → Bool
  | [] => false
  | (_, v) :: rest => hasUnsupportedT0 v || hasUnsupportedT0KVs rest

end

/-- A mapping that the decoder recognizes as an envelope whose text
discriminator names no transcoding registered in `T`. -/
def isBadEnvelope (T : Transcoder) (kvs : List (String × PyVal)) : Bool :=
  isEnvelopeKeys kvs &&
    match dictGet kvs "_type_" with
    | some (.vstr t) => (T.lookupName t).isNone
    | _ => false

mutual

/-- The decoding walk reaches (inside mappings and lists, the only shapes
it recurses into) a mapping with the envelope key set whose discriminator
text names no transcoding registered in `T`. -/
def containsBad (T : Transcoder) : PyVal → Bool
  | .vdict kvs => isBadEnvelope T kvs || containsBadKVs T kvs
  | .vlist xs => containsBadItems T xs
  | _ => false

/-- Some element satisfies `containsBad`. -/
def containsBadItems (T : Transcoder) : List PyVal → Bool
  | [] => false
  | x :: xs => containsBad T x || containsBadItems T xs

/-- Some mapping value satisfies `containsBad`. -/
def containsBadKVs (T : Transcoder) : List (String × PyVal) → Bool
  | [] => false
  | (_, v) :: rest => containsBad T v || containsBadKVs T rest

end

/-! ### The codec backend, modelled by its contract -/

/-- Serialize one character of a JSON text literal (quote and backslash
escaped; other characters pass through). -/
def jsonChar (c : Char) : String :=
  if c = '\\' then "\\\\" else if c = '"' then "\\\"" else String.singleton c

/-- Serialize a JSON text literal. -/
def jsonStrLit (s : String) : String :=
  "\"" ++ String.join (s.toList.map jsonChar) ++ "\""

mutual

/-- Compact serialization of a native value-tree, as `orjson.dumps`
produces it; `none` on the shapes `orjson.dumps` rejects (tuples and
instances of user classes), mirroring its `TypeError`. -/
def dumpsVal : PyVal → Option String
  | .vstr s => some (jsonStrLit s)
  | .vint n => some (toString n)
  | .vfloat lit => some lit
  | .vbool true => some "true"
  | .vbool false => some "false"
  | .vnone => some "null"
  | .vlist xs =>
    match dumpsItems xs with
    | none => none
    | some body => some ("[" ++ body ++ "]")
  | .vdict kvs =>
    match dumpsKVs kvs with
    | none => none
    | some body => some ("\x7b" ++ body ++ "\x7d")
  | .vtuple _ => none
  | .vobj _ _ => none

/-- Comma-separated serializations of the elements. -/
def dumpsItems : List PyVal → Option String
  | [] => some ""
  | [x] => dumpsVal x
  | x :: y :: xs =>
    match dumpsVal x with
    | none => none
    | some sx =>
      match dumpsItems (y :: xs) with
      | none => none
      | some rest => some (sx ++ "," ++ rest)

/-- Comma-separated serializations of the entries. -/
def dumpsKVs : List (String × PyVal) → Option String
  | [] => some ""
  | [(k, v)] =>
    match dumpsVal v with
    | none => none
    | some sv => some (jsonStrLit k ++ ":" ++ sv)
  | (k, v) :: e :: rest =>
    match dumpsVal v with
    | none => none
    | some sv =>
      match dumpsKVs (e :: rest) with
      | none => none
      | some srest => some (jsonStrLit k ++ ":" ++ sv ++ "," ++ srest)

end

/-- The byte-producing entry point `OrjsonTranscoder_Recursive.encode`:
`orjson.dumps(self._encode(obj))`.  The `unsupportedType` fallback on a
failed serialization mirrors the `TypeError` of `orjson.dumps` on a
non-native shape; the encoding walk never actually hands it one. -/
def encodeBytes (T : Transcoder) (fuel : Nat) (obj : PyVal) :
    Except TcError String :=
  match encode_ T fuel obj with
  | .error err => .error err
  | .ok tree =>
    match dumpsVal tree with
    | none => .error .unsupportedType
    | some s => .ok s

/-! ### Total reference encoder for the constructor registry -/

mutual

/-- The encoding walk of `transcoder0`, written as a total structural
function: native scalars pass, lists and mappings recurse, a tuple becomes
its fully-encoded envelope, and everything else (booleans, nulls,
instances of unregistered classes) fails with `unsupportedType`.  Proved
to agree with `encode_ transcoder0` at every sufficient fuel. -/
def enc0 : PyVal → Except TcError PyVal
  | .vstr s => .ok (.vstr s)
  | .vint n => .ok (.vint n)
  | .vfloat lit => .ok (.vfloat lit)
  | .vbool _ => .error .unsupportedType
  | .vnone => .error .unsupportedType
  | .vobj _ _ => .error .unsupportedType
  | .vlist xs =>
    match enc0Items xs with
    | .error err => .error err
    | .ok ys => .ok (.vlist ys)
  | .vdict kvs =>
    match enc0KVs kvs with
    | .error err => .error err
    | .ok kvs2 => .ok (.vdict kvs2)
  | .vtuple xs =>
    match enc0Items xs with
    | .error err => .error err
    | .ok ys => .ok (.vdict [("_type_", .vstr "tuple_as_list"), ("_data_", .vlist ys)])

/-- Encode every element with `enc0`. -/
def enc0Items : List PyVal → Except TcError (List PyVal)
  | [] => .ok []
  | x :: xs =>
    match enc0 x with
    | .error err => .error err
    | .ok y =>
      match enc0Items xs with
      | .error err => .error err
      | .ok ys => .ok (y :: ys)

/-- Encode every mapping value with `enc0`, keys unchanged. -/
def enc0KVs : List (String × PyVal) → Except TcError (List (String × PyVal))
  | [] => .ok []
  | (k, v) :: rest =>
    match enc0 v with
    | .error err => .error err
    | .ok w =>
      match enc0KVs rest with
      | .error err => .error err
      | .ok rest2 => .ok ((k, w) :: rest2)

end

/-! ### Induction principle for values -/

/-- Structural induction over `PyVal`, with membership hypotheses for the
elements of lists, tuples and mappings. -/
theorem PyVal.inductionOn (P : PyVal → Prop)
    (hstr : ∀ s, P (.vstr s)) (hint : ∀ n, P (.vint n))
    (hfloat : ∀ l, P (.vfloat l)) (hbool : ∀ b, P (.vbool b)) (hnone : P .vnone)
    (hlist : ∀ xs, (∀ x ∈ xs, P x) → P (.vlist xs))
    (hdict : ∀ kvs, (∀ kv ∈ kvs, P kv.2) → P (.vdict kvs))
    (htuple : ∀ xs, (∀ x ∈ xs, P x) → P (.vtuple xs))
    (hobj : ∀ c st, P st → P (.vobj c st)) : ∀ v, P v := by
  have key : ∀ n v, sizeOf v ≤ n → P v := by
    intro n
    induction n with
    | zero =>
      intro v hv
      exfalso
      cases v <;> simp at hv
    | succ n ih =>
      intro v hv
      match v with
      | .vstr s => exact hstr s
      | .vint k => exact hint k
      | .vfloat l => exact hfloat l
      | .vbool b => exact hbool b
      | .vnone => exact hnone
      | .vobj c st =>
        refine hobj c st (ih st ?_)
        simp at hv
        omega
      | .vlist xs =>
        refine hlist xs (fun x hx => ih x ?_)
        have hlt := List.sizeOf_lt_of_mem hx
        simp at hv
        omega
      | .vtuple xs =>
        refine htuple xs (fun x hx => ih x ?_)
        have hlt := List.sizeOf_lt_of_mem hx
        simp at hv
        omega
      | .vdict kvs =>
        refine hdict kvs (fun kv hkv => ih kv.2 ?_)
        have hlt := List.sizeOf_lt_of_mem hkv
        obtain ⟨a, b⟩ := kv
        simp at hv hlt ⊢
        omega
  intro v
  exact key (sizeOf v) v le_rfl

/-! ### Fuel stability of the encoding walk -/

/-- If `e₂` agrees with `e₁` wherever `e₁` does not run out of fuel, the
same holds for the list traversal. -/
theorem encList_stable {e₁ e₂ : PyVal → Except TcError PyVal}
    (hs : ∀ x ∈ xs, e₁ x ≠ .error .recursionLimit → e₂ x = e₁ x)
    (h : encList e₁ xs ≠ .error .recursionLimit) :
    encList e₂ xs = encList e₁ xs := by
  induction xs with
  | nil => rfl
  | cons x xs ih =>
    simp only [encList] at h ⊢
    cases h1 : e₁ x with
    | error err =>
      rw [h1] at h
      rw [hs x (by simp) (by rw [h1]; intro hc; exact h (by injection hc with h2; rw [h2])), h1]
    | ok y =>
      rw [h1] at h
      rw [hs x (by simp) (by rw [h1]; intro hc; cases hc), h1]
      cases h2 : encList e₁ xs with
      | error err =>
        rw [h2] at h
        rw [ih (fun x hx => hs x (by simp [hx])) (by rw [h2]; intro hc; exact h hc), h2]
      | ok ys =>
        rw [ih (fun x hx => hs x (by simp [hx])) (by rw [h2]; intro hc; cases hc), h2]

/-- Association-list analogue of `encList_stable`. -/
theorem encKVs_stable {e₁ e₂ : PyVal → Except TcError PyVal}
    {kvs : List (String × PyVal)}
    (hs : ∀ kv ∈ kvs, e₁ kv.2 ≠ .error .recursionLimit → e₂ kv.2 = e₁ kv.2)
    (h : encKVs e₁ kvs ≠ .error .recursionLimit) :
    encKVs e₂ kvs = encKVs e₁ kvs := by
  induction kvs with
  | nil => rfl
  | cons kv rest ih =>
    obtain ⟨k, v⟩ := kv
    simp only [encKVs] at h ⊢
    cases h1 : e₁ v with
    | error err =>
      rw [h1] at h
      rw [hs (k, v) (by simp) (by rw [h1]; intro hc; exact h (by injection hc with h2; rw [h2])), h1]
    | ok w =>
      rw [h1] at h
      rw [hs (k, v) (by simp) (by rw [h1]; intro hc; cases hc), h1]
      cases h2 : encKVs e₁ rest with
      | error err =>
        rw [h2] at h
        rw [ih (fun kv hkv => hs kv (by simp [hkv])) (by rw [h2]; intro hc; exact h hc), h2]
      | ok rest2 =>
        rw [ih (fun kv hkv => hs kv (by simp [hkv])) (by rw [h2]; intro hc; cases hc), h2]

/-- Fuel stability: a result of the encoding walk that is not a fuel
exhaustion is unchanged by any additional fuel. -/
theorem encode_stable (T : Transcoder) :
    ∀ f, ∀ v, encode_ T f v ≠ .error .recursionLimit →
      ∀ g, encode_ T (f + g) v = encode_ T f v := by
  intro f
  induction f with
  | zero =>
    intro v h
    exact absurd rfl h
  | succ f ih =>
    intro v h g
    have hsucc : f + 1 + g = (f + g) + 1 := by omega
    rw [hsucc]
    cases v with
    | vstr s => simp [encode_]
    | vint n => simp [encode_]
    | vfloat l => simp [encode_]
    | vbool b =>
      simp only [encode_] at h ⊢
      cases hl : Transcoder.lookupType T (PyVal.typeOf (.vbool b)) with
      | none => rfl
      | some tc =>
        rw [hl] at h
        exact ih _ h g
    | vnone =>
      simp only [encode_] at h ⊢
      cases hl : Transcoder.lookupType T (PyVal.typeOf .vnone) with
      | none => rfl
      | some tc =>
        rw [hl] at h
        exact ih _ h g
    | vobj c st =>
      simp only [encode_] at h ⊢
      cases hl : Transcoder.lookupType T (PyVal.typeOf (.vobj c st)) with
      | none => rfl
      | some tc =>
        rw [hl] at h
        exact ih _ h g
    | vtuple xs =>
      simp only [encode_] at h ⊢
      cases hl : Transcoder.lookupType T (PyVal.typeOf (.vtuple xs)) with
      | none => rfl
      | some tc =>
        rw [hl] at h
        exact ih _ h g
    | vlist xs =>
      simp only [encode_] at h ⊢
      have hne : encList (encode_ T f) xs ≠ .error .recursionLimit := by
        intro hc
        rw [hc] at h
        exact h rfl
      rw [encList_stable (fun x _ hx => ih x hx g) hne]
    | vdict kvs =>
      simp only [encode_] at h ⊢
      have hne : encKVs (encode_ T f) kvs ≠ .error .recursionLimit := by
        intro hc
        rw [hc] at h
        exact h rfl
      rw [encKVs_stable (fun kv _ hkv => ih kv.2 hkv g) hne]

/-- Determinism of the encoding walk across fuels: two non-exhausted runs
on the same value agree. -/
theorem encode_det (T : Transcoder) {f1 f2 : Nat} {v : PyVal}
    {r1 r2 : Except TcError PyVal}
    (h1 : encode_ T f1 v = r1) (h2 : encode_ T f2 v = r2)
    (n1 : r1 ≠ .error .recursionLimit) (n2 : r2 ≠ .error .recursionLimit) :
    r1 = r2 := by
  rcases Nat.le_total f1 f2 with hle | hle
  · obtain ⟨g, rfl⟩ := Nat.le.dest hle
    rw [← h1, ← h2, encode_stable T f1 v (by rw [h1]; exact n1) g]
  · obtain ⟨g, rfl⟩ := Nat.le.dest hle
    rw [← h1, ← h2, encode_stable T f2 v (by rw [h2]; exact n2) g]

/-! ### Agreement of the fuelled walk with the reference encoder -/

/-- Constructor-registry lookup of the tuple type. -/
theorem lookupType0_tuple : transcoder0.lookupType .pyTuple = some TupleAsList := rfl

/-- Sufficient fuel for a whole list, from sufficient fuel per element. -/
theorem encItemsFuel (xs : List PyVal)
    (h : ∀ x ∈ xs, ∃ f, ∀ g, encode_ transcoder0 (f + g) x = enc0 x) :
    ∃ F, ∀ g, encList (encode_ transcoder0 (F + g)) xs = enc0Items xs := by
  induction xs with
  | nil => exact ⟨0, fun g => rfl⟩
  | cons x xs ih =>
    obtain ⟨f1, hf1⟩ := h x (by simp)
    obtain ⟨F, hF⟩ := ih (fun y hy => h y (by simp [hy]))
    refine ⟨max f1 F, fun g => ?_⟩
    have hx : encode_ transcoder0 (max f1 F + g) x = enc0 x := by
      rw [show max f1 F + g = f1 + (max f1 F - f1 + g) by omega]
      exact hf1 _
    have hxs : encList (encode_ transcoder0 (max f1 F + g)) xs = enc0Items xs := by
      rw [show max f1 F + g = F + (max f1 F - F + g) by omega]
      exact hF _
    simp only [encList, enc0Items]
    rw [hx, hxs]

/-- Association-list analogue of `encItemsFuel`. -/
theorem encKVsFuel (kvs : List (String × PyVal))
    (h : ∀ kv ∈ kvs, ∃ f, ∀ g, encode_ transcoder0 (f + g) kv.2 = enc0 kv.2) :
    ∃ F, ∀ g, encKVs (encode_ transcoder0 (F + g)) kvs = enc0KVs kvs := by
  induction kvs with
  | nil => exact ⟨0, fun g => rfl⟩
  | cons kv rest ih =>
    obtain ⟨k, v⟩ := kv
    obtain ⟨f1, hf1⟩ := h (k, v) (by simp)
    obtain ⟨F, hF⟩ := ih (fun e he => h e (by simp [he]))
    refine ⟨max f1 F, fun g => ?_⟩
    have hx : encode_ transcoder0 (max f1 F + g) v = enc0 v := by
      rw [show max f1 F + g = f1 + (max f1 F - f1 + g) by omega]
      exact hf1 _
    have hxs : encKVs (encode_ transcoder0 (max f1 F + g)) rest = enc0KVs rest := by
      rw [show max f1 F + g = F + (max f1 F - F + g) by omega]
      exact hF _
    simp only [encKVs, enc0KVs]
    rw [hx, hxs]

/-- The fuelled walk `encode_` of the constructor transcoder agrees with
the total reference encoder `enc0` at every sufficient fuel. -/
theorem enc0_spec : ∀ v, ∃ f, ∀ g, encode_ transcoder0 (f + g) v = enc0 v := by
  refine PyVal.inductionOn _ ?_ ?_ ?_ ?_ ?_ ?_ ?_ ?_ ?_
  · exact fun s => ⟨1, fun g => by rw [Nat.add_comm]; rfl⟩
  · exact fun n => ⟨1, fun g => by rw [Nat.add_comm]; rfl⟩
  · exact fun l => ⟨1, fun g => by rw [Nat.add_comm]; rfl⟩
  · exact fun b => ⟨1, fun g => by rw [Nat.add_comm]; rfl⟩
  · exact ⟨1, fun g => by rw [Nat.add_comm]; rfl⟩
  · intro xs ihs
    obtain ⟨F, hF⟩ := encItemsFuel xs ihs
    refine ⟨F + 1, fun g => ?_⟩
    rw [show F + 1 + g = (F + g) + 1 by omega]
    simp only [encode_, enc0]
    rw [hF g]
  · intro kvs ihs
    obtain ⟨F, hF⟩ := encKVsFuel kvs ihs
    refine ⟨F + 1, fun g => ?_⟩
    rw [show F + 1 + g = (F + g) + 1 by omega]
    simp only [encode_, enc0]
    rw [hF g]
  · intro xs ihs
    obtain ⟨F, hF⟩ := encItemsFuel xs ihs
    refine ⟨F + 3, fun g => ?_⟩
    rw [show F + 3 + g = ((F + g) + 1 + 1) + 1 by omega]
    simp only [encode_, enc0, PyVal.typeOf, lookupType0_tuple, TupleAsList, encKVs, encList]
    rw [hF g]
    cases enc0Items xs with
    | error e => rfl
    | ok ys => rfl
  · exact fun c st _ => ⟨1, fun g => by rw [Nat.add_comm]; rfl⟩

/-! ### Decode-side lemmas -/

/-- Decoding an association list preserves the key sequence. -/
theorem decodeKVs_keys (T : Transcoder) :
    ∀ kvs kvs2, decodeKVs T kvs = .ok kvs2 →
      kvs2.map Prod.fst = kvs.map Prod.fst := by
  intro kvs
  induction kvs with
  | nil =>
    intro kvs2 h
    simp only [decodeKVs] at h
    injection h with h
    rw [← h]
  | cons kv rest ih =>
    obtain ⟨k, v⟩ := kv
    intro kvs2 h
    simp only [decodeKVs] at h
    cases h1 : decodeVal T v with
    | error e => rw [h1] at h; cases h
    | ok w =>
      rw [h1] at h
      cases h2 : decodeKVs T rest with
      | error e => rw [h2] at h; cases h
      | ok rest2 =>
        rw [h2] at h
        injection h with h
        rw [← h]
        simp [ih rest2 h2]

/-- The envelope key test only depends on the key sequence. -/
theorem isEnvelopeKeys_congr {kvs kvs2 : List (String × PyVal)}
    (h : kvs2.map Prod.fst = kvs.map Prod.fst) :
    isEnvelopeKeys kvs2 = isEnvelopeKeys kvs := by
  unfold isEnvelopeKeys
  rw [h]

/-- Mapping access after decoding: the value found under a key in the
decoded association list is the decoded original value. -/
theorem decodeKVs_get (T : Transcoder) :
    ∀ kvs kvs2 key w, decodeKVs T kvs = .ok kvs2 →
      dictGet kvs key = some w →
      ∃ w2, decodeVal T w = .ok w2 ∧ dictGet kvs2 key = some w2 := by
  intro kvs
  induction kvs with
  | nil =>
    intro kvs2 key w _ hget
    simp [dictGet] at hget
  | cons kv rest ih =>
    obtain ⟨k, v⟩ := kv
    intro kvs2 key w h hget
    simp only [decodeKVs] at h
    cases h1 : decodeVal T v with
    | error e => rw [h1] at h; cases h
    | ok w0 =>
      rw [h1] at h
      cases h2 : decodeKVs T rest with
      | error e => rw [h2] at h; cases h
      | ok rest2 =>
        rw [h2] at h
        injection h with h
        by_cases hk : (k == key) = true
        · refine ⟨w0, ?_, ?_⟩
          · simp [dictGet, List.find?, hk] at hget
            rw [← hget]
            exact h1
          · rw [← h]
            simp [dictGet, List.find?, hk]
        · have hk2 : (k == key) = false := by simpa using hk
          have hget2 : dictGet rest key = some w := by
            simp only [dictGet, List.find?, hk2] at hget
            exact hget
          obtain ⟨w2, hw2, hfind⟩ := ih rest2 key w h2 hget2
          refine ⟨w2, hw2, ?_⟩
          rw [← h]
          simp only [dictGet, List.find?, hk2]
          exact hfind

/-- `decode_obj` fails only with `unknownTypeName`. -/
theorem decode_obj_err (T : Transcoder) (kvs : List (String × PyVal)) :
    ∀ e, decode_obj T kvs = .error e → e = .unknownTypeName := by
  intro e h
  unfold decode_obj at h
  split at h
  · split at h
    · split at h
      · injection h with h
        rw [← h]
      · cases h
    · injection h with h
      rw [← h]
  · cases h

/-- List traversal of the decoder fails only with `unknownTypeName`,
given that each element does. -/
theorem decodeItems_err (T : Transcoder) :
    ∀ xs, (∀ x ∈ xs, ∀ e, decodeVal T x = .error e → e = .unknownTypeName) →
      ∀ e, decodeItems T xs = .error e → e = .unknownTypeName := by
  intro xs
  induction xs with
  | nil =>
    intro _ e h
    cases h
  | cons x xs ih =>
    intro hpt e h
    simp only [decodeItems] at h
    cases h1 : decodeVal T x with
    | error e2 =>
      rw [h1] at h
      injection h with h
      exact h ▸ hpt x (by simp) e2 h1
    | ok y =>
      rw [h1] at h
      cases h2 : decodeItems T xs with
      | error e2 =>
        rw [h2] at h
        injection h with h
        exact h ▸ ih (fun z hz => hpt z (by simp [hz])) e2 h2
      | ok ys =>
        rw [h2] at h
        cases h

/-- Association-list analogue of `decodeItems_err`. -/
theorem decodeKVs_err (T : Transcoder) :
    ∀ kvs, (∀ kv ∈ kvs, ∀ e, decodeVal T kv.2 = .error e → e = .unknownTypeName) →
      ∀ e, decodeKVs T kvs = .error e → e = .unknownTypeName := by
  intro kvs
  induction kvs with
  | nil =>
    intro _ e h
    cases h
  | cons kv rest ih =>
    obtain ⟨k, v⟩ := kv
    intro hpt e h
    simp only [decodeKVs] at h
    cases h1 : decodeVal T v with
    | error e2 =>
      rw [h1] at h
      injection h with h
      exact h ▸ hpt (k, v) (by simp) e2 h1
    | ok w =>
      rw [h1] at h
      cases h2 : decodeKVs T rest with
      | error e2 =>
        rw [h2] at h
        injection h with h
        exact h ▸ ih (fun z hz => hpt z (by simp [hz])) e2 h2
      | ok rest2 =>
        rw [h2] at h
        cases h

/-- The decoding walk fails only with `unknownTypeName`. -/
theorem decode_err (T : Transcoder) :
    ∀ v, ∀ e, decodeVal T v = .error e → e = .unknownTypeName := by
  refine PyVal.inductionOn _ ?_ ?_ ?_ ?_ ?_ ?_ ?_ ?_ ?_
  · intro s e h; cases h
  · intro n e h; cases h
  · intro l e h; cases h
  · intro b e h; cases h
  · intro e h; cases h
  · intro xs ihs e h
    simp only [decodeVal] at h
    cases h1 : decodeItems T xs with
    | error e2 =>
      rw [h1] at h
      injection h with h
      exact h ▸ decodeItems_err T xs ihs e2 h1
    | ok ys =>
      rw [h1] at h
      cases h
  · intro kvs ihs e h
    simp only [decodeVal] at h
    cases h1 : decodeKVs T kvs with
    | error e2 =>
      rw [h1] at h
      injection h with h
      exact h ▸ decodeKVs_err T kvs ihs e2 h1
    | ok kvs2 =>
      rw [h1] at h
      exact decode_obj_err T kvs2 e h
  · intro xs _ e h; cases h
  · intro c st _ e h; cases h

/-- Unpacking a bad envelope: envelope keys, a text discriminator, and a
failing name lookup. -/
theorem isBadEnvelope_elim (T : Transcoder) (kvs : List (String × PyVal))
    (h : isBadEnvelope T kvs = true) :
    isEnvelopeKeys kvs = true ∧
      ∃ t, dictGet kvs "_type_" = some (.vstr t) ∧ T.lookupName t = none := by
  unfold isBadEnvelope at h
  rw [Bool.and_eq_true] at h
  obtain ⟨h1, h2⟩ := h
  refine ⟨h1, ?_⟩
  split at h2
  case h_1 t heq =>
    exact ⟨t, heq, Option.isNone_iff_eq_none.mp h2⟩
  case h_2 =>
    cases h2

/-- A list whose traversal reaches a bad envelope does not decode. -/
theorem decodeItems_not_ok (T : Transcoder) :
    ∀ xs, (∀ x ∈ xs, containsBad T x = true → ∀ r, decodeVal T x ≠ .ok r) →
      containsBadItems T xs = true → ∀ rs, decodeItems T xs ≠ .ok rs := by
  intro xs
  induction xs with
  | nil =>
    intro _ h
    cases h
  | cons x xs ih =>
    intro hpt h rs hok
    simp only [containsBadItems, Bool.or_eq_true] at h
    simp only [decodeItems] at hok
    cases h1 : decodeVal T x with
    | error e =>
      rw [h1] at hok
      cases hok
    | ok y =>
      rw [h1] at hok
      cases h2 : decodeItems T xs with
      | error e =>
        rw [h2] at hok
        cases hok
      | ok ys =>
        rcases h with hx | hxs
        · exact hpt x (by simp) hx y h1
        · exact ih (fun z hz => hpt z (by simp [hz])) hxs ys h2

/-- Association-list analogue of `decodeItems_not_ok`. -/
theorem decodeKVs_not_ok (T : Transcoder) :
    ∀ kvs, (∀ kv ∈ kvs, containsBad T kv.2 = true → ∀ r, decodeVal T kv.2 ≠ .ok r) →
      containsBadKVs T kvs = true → ∀ rs, decodeKVs T kvs ≠ .ok rs := by
  intro kvs
  induction kvs with
  | nil =>
    intro _ h
    cases h
  | cons kv rest ih =>
    obtain ⟨k, v⟩ := kv
    intro hpt h rs hok
    simp only [containsBadKVs, Bool.or_eq_true] at h
    simp only [decodeKVs] at hok
    cases h1 : decodeVal T v with
    | error e =>
      rw [h1] at hok
      cases hok
    | ok w =>
      rw [h1] at hok
      cases h2 : decodeKVs T rest with
      | error e =>
        rw [h2] at hok
        cases hok
      | ok rest2 =>
        rcases h with hv | hrest
        · exact hpt (k, v) (by simp) hv w h1
        · exact ih (fun z hz => hpt z (by simp [hz])) hrest rest2 h2

/-- A tree whose decoding walk reaches a bad envelope does not decode. -/
theorem containsBad_not_ok (T : Transcoder) :
    ∀ v, containsBad T v = true → ∀ r, decodeVal T v ≠ .ok r := by
  refine PyVal.inductionOn _ ?_ ?_ ?_ ?_ ?_ ?_ ?_ ?_ ?_
  · intro s h; cases h
  · intro n h; cases h
  · intro l h; cases h
  · intro b h; cases h
  · intro h; cases h
  · intro xs ihs h r hok
    simp only [containsBad] at h
    simp only [decodeVal] at hok
    cases h1 : decodeItems T xs with
    | error e =>
      rw [h1] at hok
      cases hok
    | ok ys =>
      rw [h1] at hok
      exact decodeItems_not_ok T xs ihs h ys h1
  · intro kvs ihs h r hok
    simp only [containsBad, Bool.or_eq_true] at h
    simp only [decodeVal] at hok
    cases h1 : decodeKVs T kvs with
    | error e =>
      rw [h1] at hok
      cases hok
    | ok kvs2 =>
      rw [h1] at hok
      rcases h with hbad | hkvs
      · obtain ⟨henv, t, hget, hname⟩ := isBadEnvelope_elim T kvs hbad
        obtain ⟨w2, hw2, hget2⟩ := decodeKVs_get T kvs kvs2 "_type_" (.vstr t) h1 hget
        have hw : w2 = .vstr t := by
          have hs : decodeVal T (.vstr t) = .ok (.vstr t) := rfl
          rw [hs] at hw2
          injection hw2 with hw2
          rw [hw2]
        rw [hw] at hget2
        have henv2 : isEnvelopeKeys kvs2 = true := by
          rw [isEnvelopeKeys_congr (decodeKVs_keys T kvs kvs2 h1), henv]
        have hok2 : decode_obj T kvs2 = .ok r := hok
        unfold decode_obj at hok2
        rw [if_pos henv2, hget2] at hok2
        simp [hname] at hok2
      · exact decodeKVs_not_ok T kvs ihs hkvs kvs2 h1
  · intro xs _ h; cases h
  · intro c st _ h; cases h

/-! ### Envelope decoding and round trips -/

/-- Decoding an envelope mapping: the payload is decoded first (bottom-up),
then the discriminator is resolved and the transcoding's `decode` is
applied to the already-reconstructed payload. -/
theorem decode_envelope (T : Transcoder) (nm : String) (p p2 : PyVal)
    (hp : decodeVal T p = .ok p2) :
    decodeVal T (.vdict [("_type_", .vstr nm), ("_data_", p)]) =
      match T.lookupName nm with
      | none => .error .unknownTypeName
      | some tc => .ok (tc.decode p2) := by
  have hkvs : decodeKVs T [("_type_", .vstr nm), ("_data_", p)] =
      .ok [("_type_", .vstr nm), ("_data_", p2)] := by
    simp only [decodeKVs, hp]
    rfl
  simp only [decodeVal, hkvs]
  unfold decode_obj
  rw [if_pos (by rfl)]
  cases hn : T.lookupName nm with
  | none => simp [dictGet, hn]
  | some tc => simp [dictGet, hn]

/-- Round trip of a list of safe values through `enc0` and the decoder. -/
theorem enc0Items_roundtrip (xs : List PyVal)
    (h : ∀ x ∈ xs, safe x = true →
      ∃ r, enc0 x = .ok r ∧ decodeVal transcoder0 r = .ok x)
    (hs : safeItems xs = true) :
    ∃ rs, enc0Items xs = .ok rs ∧ decodeItems transcoder0 rs = .ok xs := by
  induction xs with
  | nil => exact ⟨[], rfl, rfl⟩
  | cons x xs ih =>
    simp only [safeItems, Bool.and_eq_true] at hs
    obtain ⟨r, hr, hd⟩ := h x (by simp) hs.1
    obtain ⟨rs, hrs, hds⟩ := ih (fun z hz hsz => h z (by simp [hz]) hsz) hs.2
    refine ⟨r :: rs, ?_, ?_⟩
    · simp only [enc0Items, hr, hrs]
    · simp only [decodeItems, hd, hds]

/-- Round trip of an association list of safe values, with keys kept. -/
theorem enc0KVs_roundtrip (kvs : List (String × PyVal))
    (h : ∀ kv ∈ kvs, safe kv.2 = true →
      ∃ r, enc0 kv.2 = .ok r ∧ decodeVal transcoder0 r = .ok kv.2)
    (hs : safeKVs kvs = true) :
    ∃ rs, enc0KVs kvs = .ok rs ∧ decodeKVs transcoder0 rs = .ok kvs ∧
      rs.map Prod.fst = kvs.map Prod.fst := by
  induction kvs with
  | nil => exact ⟨[], rfl, rfl, rfl⟩
  | cons kv rest ih =>
    obtain ⟨k, v⟩ := kv
    simp only [safeKVs, Bool.and_eq_true] at hs
    obtain ⟨r, hr, hd⟩ := h (k, v) (by simp) hs.1
    obtain ⟨rs, hrs, hds, hkeys⟩ := ih (fun z hz hsz => h z (by simp [hz]) hsz) hs.2
    refine ⟨(k, r) :: rs, ?_, ?_, ?_⟩
    · simp only [enc0KVs, hr, hrs]
    · simp only [decodeKVs, hd, hds]
    · simp [hkeys]

/-- Round trip through the constructor transcoder for every safe value:
encoding succeeds and decoding the resulting tree restores the value. -/
theorem enc0_roundtrip :
    ∀ v, safe v = true →
      ∃ r, enc0 v = .ok r ∧ decodeVal transcoder0 r = .ok v := by
  refine PyVal.inductionOn _ ?_ ?_ ?_ ?_ ?_ ?_ ?_ ?_ ?_
  · exact fun s _ => ⟨.vstr s, rfl, rfl⟩
  · exact fun n _ => ⟨.vint n, rfl, rfl⟩
  · exact fun l _ => ⟨.vfloat l, rfl, rfl⟩
  · intro b h; cases h
  · intro h; cases h
  · intro xs ihs h
    have hs : safeItems xs = true := h
    obtain ⟨rs, hrs, hds⟩ := enc0Items_roundtrip xs ihs hs
    refine ⟨.vlist rs, ?_, ?_⟩
    · simp only [enc0, hrs]
    · simp only [decodeVal, hds]
  · intro kvs ihs h
    simp only [safe, Bool.and_eq_true] at h
    obtain ⟨henv, hkvs⟩ := h
    rw [Bool.not_eq_true'] at henv
    obtain ⟨rs, hrs, hds, hkeys⟩ := enc0KVs_roundtrip kvs ihs hkvs
    refine ⟨.vdict rs, ?_, ?_⟩
    · simp only [enc0, hrs]
    · simp only [decodeVal, hds]
      unfold decode_obj
      rw [if_neg (by rw [henv]; exact Bool.false_ne_true)]
  · intro xs ihs h
    have hs : safeItems xs = true := h
    obtain ⟨rs, hrs, hds⟩ := enc0Items_roundtrip xs ihs hs
    have hlist : decodeVal transcoder0 (.vlist rs) = .ok (.vlist xs) := by
      simp only [decodeVal, hds]
    refine ⟨.vdict [("_type_", .vstr "tuple_as_list"), ("_data_", .vlist rs)], ?_, ?_⟩
    · simp only [enc0, hrs]
    · rw [decode_envelope transcoder0 "tuple_as_list" (.vlist rs) (.vlist xs) hlist]
      rfl
  · intro c st _ h; cases h

/-! ### Native pass-through, tree shapes, serializer totality -/

/-- Lists of `nativeSafe` values pass through encoding and decoding
unchanged. -/
theorem enc0Items_native (xs : List PyVal)
    (h : ∀ x ∈ xs, nativeSafe x = true →
      enc0 x = .ok x ∧ decodeVal transcoder0 x = .ok x)
    (hs : nativeSafeItems xs = true) :
    enc0Items xs = .ok xs ∧ decodeItems transcoder0 xs = .ok xs := by
  induction xs with
  | nil => exact ⟨rfl, rfl⟩
  | cons x xs ih =>
    simp only [nativeSafeItems, Bool.and_eq_true] at hs
    obtain ⟨he, hd⟩ := h x (by simp) hs.1
    obtain ⟨hes, hds⟩ := ih (fun z hz hsz => h z (by simp [hz]) hsz) hs.2
    constructor
    · simp only [enc0Items, he, hes]
    · simp only [decodeItems, hd, hds]

/-- Association lists of `nativeSafe` values pass through unchanged. -/
theorem enc0KVs_native (kvs : List (String × PyVal))
    (h : ∀ kv ∈ kvs, nativeSafe kv.2 = true →
      enc0 kv.2 = .ok kv.2 ∧ decodeVal transcoder0 kv.2 = .ok kv.2)
    (hs : nativeSafeKVs kvs = true) :
    enc0KVs kvs = .ok kvs ∧ decodeKVs transcoder0 kvs = .ok kvs := by
  induction kvs with
  | nil => exact ⟨rfl, rfl⟩
  | cons kv rest ih =>
    obtain ⟨k, v⟩ := kv
    simp only [nativeSafeKVs, Bool.and_eq_true] at hs
    obtain ⟨he, hd⟩ := h (k, v) (by simp) hs.1
    obtain ⟨hes, hds⟩ := ih (fun z hz hsz => h z (by simp [hz]) hsz) hs.2
    constructor
    · simp only [enc0KVs, he, hes]
    · simp only [decodeKVs, hd, hds]

/-- Native pass-through: on values built purely from the native scalar
types and containers, with no envelope-shaped mapping inside, the encoding
walk is the identity and the decoding walk restores the value. -/
theorem enc0_native :
    ∀ v, nativeSafe v = true →
      enc0 v = .ok v ∧ decodeVal transcoder0 v = .ok v := by
  refine PyVal.inductionOn _ ?_ ?_ ?_ ?_ ?_ ?_ ?_ ?_ ?_
  · exact fun s _ => ⟨rfl, rfl⟩
  · exact fun n _ => ⟨rfl, rfl⟩
  · exact fun l _ => ⟨rfl, rfl⟩
  · intro b h; cases h
  · intro h; cases h
  · intro xs ihs h
    obtain ⟨hes, hds⟩ := enc0Items_native xs ihs h
    constructor
    · simp only [enc0, hes]
    · simp only [decodeVal, hds]
  · intro kvs ihs h
    simp only [nativeSafe, Bool.and_eq_true] at h
    obtain ⟨henv, hkvs⟩ := h
    rw [Bool.not_eq_true'] at henv
    obtain ⟨hes, hds⟩ := enc0KVs_native kvs ihs hkvs
    constructor
    · simp only [enc0, hes]
    · simp only [decodeVal, hds]
      unfold decode_obj
      rw [if_neg (by rw [henv]; exact Bool.false_ne_true)]
  · intro xs _ h; cases h
  · intro c st _ h; cases h

/-- Successful `enc0Items` results are parsed-shape trees, given that the
elements' results are. -/
theorem enc0Items_isJson (xs : List PyVal)
    (h : ∀ x ∈ xs, ∀ r, enc0 x = .ok r → isJson r = true) :
    ∀ rs, enc0Items xs = .ok rs → isJsonItems rs = true := by
  induction xs with
  | nil =>
    intro rs hok
    injection hok with hok
    rw [← hok]
    rfl
  | cons x xs ih =>
    intro rs hok
    simp only [enc0Items] at hok
    cases h1 : enc0 x with
    | error e => rw [h1] at hok; cases hok
    | ok y =>
      rw [h1] at hok
      cases h2 : enc0Items xs with
      | error e => rw [h2] at hok; cases hok
      | ok ys =>
        rw [h2] at hok
        injection hok with hok
        rw [← hok]
        simp only [isJsonItems, Bool.and_eq_true]
        exact ⟨h x (by simp) y h1, ih (fun z hz => h z (by simp [hz])) ys h2⟩

/-- Association-list analogue of `enc0Items_isJson`. -/
theorem enc0KVs_isJson (kvs : List (String × PyVal))
    (h : ∀ kv ∈ kvs, ∀ r, enc0 kv.2 = .ok r → isJson r = true) :
    ∀ rs, enc0KVs kvs = .ok rs → isJsonKVs rs = true := by
  induction kvs with
  | nil =>
    intro rs hok
    injection hok with hok
    rw [← hok]
    rfl
  | cons kv rest ih =>
    obtain ⟨k, v⟩ := kv
    intro rs hok
    simp only [enc0KVs] at hok
    cases h1 : enc0 v with
    | error e => rw [h1] at hok; cases hok
    | ok w =>
      rw [h1] at hok
      cases h2 : enc0KVs rest with
      | error e => rw [h2] at hok; cases hok
      | ok rest2 =>
        rw [h2] at hok
        injection hok with hok
        rw [← hok]
        simp only [isJsonKVs, Bool.and_eq_true]
        exact ⟨h (k, v) (by simp) w h1, ih (fun z hz => h z (by simp [hz])) rest2 h2⟩

/-- Every successful result of the encoding walk is a parsed-shape native
tree (so the serializer accepts it). -/
theorem enc0_isJson :
    ∀ v, ∀ r, enc0 v = .ok r → isJson r = true := by
  refine PyVal.inductionOn _ ?_ ?_ ?_ ?_ ?_ ?_ ?_ ?_ ?_
  · intro s r h; injection h with h; rw [← h]; rfl
  · intro n r h; injection h with h; rw [← h]; rfl
  · intro l r h; injection h with h; rw [← h]; rfl
  · intro b r h; cases h
  · intro r h; cases h
  · intro xs ihs r h
    simp only [enc0] at h
    cases h1 : enc0Items xs with
    | error e => rw [h1] at h; cases h
    | ok ys =>
      rw [h1] at h
      injection h with h
      rw [← h]
      exact enc0Items_isJson xs ihs ys h1
  · intro kvs ihs r h
    simp only [enc0] at h
    cases h1 : enc0KVs kvs with
    | error e => rw [h1] at h; cases h
    | ok kvs2 =>
      rw [h1] at h
      injection h with h
      rw [← h]
      exact enc0KVs_isJson kvs ihs kvs2 h1
  · intro xs ihs r h
    simp only [enc0] at h
    cases h1 : enc0Items xs with
    | error e => rw [h1] at h; cases h
    | ok ys =>
      rw [h1] at h
      injection h with h
      rw [← h]
      simp only [isJson, isJsonKVs, isJsonItems, Bool.and_eq_true]
      exact ⟨trivial, enc0Items_isJson xs ihs ys h1, trivial⟩
  · intro c st _ r h; cases h

/-- The serializer accepts every parsed-shape list, given that it accepts
each element. -/
theorem dumpsItems_some (xs : List PyVal)
    (h : ∀ x ∈ xs, isJson x = true → (dumpsVal x).isSome = true) :
    isJsonItems xs = true → (dumpsItems xs).isSome = true := by
  induction xs with
  | nil => intro _; rfl
  | cons x xs ih =>
    intro hj
    simp only [isJsonItems, Bool.and_eq_true] at hj
    have hx := h x (by simp) hj.1
    rw [Option.isSome_iff_exists] at hx
    obtain ⟨sx, hsx⟩ := hx
    cases xs with
    | nil =>
      simp only [dumpsItems, hsx]
      rfl
    | cons y ys =>
      have hrest := ih (fun z hz => h z (by simp [hz])) hj.2
      rw [Option.isSome_iff_exists] at hrest
      obtain ⟨sr, hsr⟩ := hrest
      simp only [dumpsItems, hsx] at hsr ⊢
      rw [hsr]
      rfl

/-- The serializer accepts every parsed-shape association list, given that
it accepts each value. -/
theorem dumpsKVs_some (kvs : List (String × PyVal))
    (h : ∀ kv ∈ kvs, isJson kv.2 = true → (dumpsVal kv.2).isSome = true) :
    isJsonKVs kvs = true → (dumpsKVs kvs).isSome = true := by
  induction kvs with
  | nil => intro _; rfl
  | cons kv rest ih =>
    obtain ⟨k, v⟩ := kv
    intro hj
    simp only [isJsonKVs, Bool.and_eq_true] at hj
    have hx := h (k, v) (by simp) hj.1
    rw [Option.isSome_iff_exists] at hx
    obtain ⟨sx, hsx⟩ := hx
    cases rest with
    | nil =>
      simp only [dumpsKVs, hsx]
      rfl
    | cons e es =>
      have hrest := ih (fun z hz => h z (by simp [hz])) hj.2
      rw [Option.isSome_iff_exists] at hrest
      obtain ⟨sr, hsr⟩ := hrest
      simp only [dumpsKVs, hsx] at hsr ⊢
      rw [hsr]
      rfl

/-- The serializer accepts every parsed-shape native tree. -/
theorem dumpsVal_some :
    ∀ v, isJson v = true → (dumpsVal v).isSome = true := by
  refine PyVal.inductionOn _ ?_ ?_ ?_ ?_ ?_ ?_ ?_ ?_ ?_
  · intro s _; rfl
  · intro n _; rfl
  · intro l _; rfl
  · intro b _; cases b <;> rfl
  · intro _; rfl
  · intro xs ihs hj
    have hx := dumpsItems_some xs ihs hj
    rw [Option.isSome_iff_exists] at hx
    obtain ⟨sx, hsx⟩ := hx
    simp only [dumpsVal, hsx]
    rfl
  · intro kvs ihs hj
    have hx := dumpsKVs_some kvs ihs hj
    rw [Option.isSome_iff_exists] at hx
    obtain ⟨sx, hsx⟩ := hx
    simp only [dumpsVal, hsx]
    rfl
  · intro xs _ hj; cases hj
  · intro c st _ hj; cases hj

/-! ### Characterization of encoding failures for the constructor registry -/

/-- A list fails the encoding walk with `unsupportedType` exactly when
some element is unsupported, given the same property per element. -/
theorem enc0Items_unsup (xs : List PyVal)
    (h : ∀ x ∈ xs,
      (hasUnsupportedT0 x = true → enc0 x = .error .unsupportedType) ∧
      (hasUnsupportedT0 x = false → ∃ r, enc0 x = .ok r)) :
    (hasUnsupportedT0Items xs = true → enc0Items xs = .error .unsupportedType) ∧
    (hasUnsupportedT0Items xs = false → ∃ rs, enc0Items xs = .ok rs) := by
  induction xs with
  | nil => exact ⟨(fun hc => nomatch hc), fun _ => ⟨[], rfl⟩⟩
  | cons x xs ih =>
    obtain ⟨ihe, iho⟩ := ih (fun z hz => h z (by simp [hz]))
    obtain ⟨hxe, hxo⟩ := h x (by simp)
    constructor
    · intro hu
      simp only [hasUnsupportedT0Items, Bool.or_eq_true] at hu
      cases hx : hasUnsupportedT0 x with
      | true =>
        simp only [enc0Items, hxe hx]
      | false =>
        obtain ⟨y, hy⟩ := hxo hx
        have hxs : hasUnsupportedT0Items xs = true := by
          rcases hu with hu | hu
          · rw [hx] at hu; cases hu
          · exact hu
        simp only [enc0Items, hy, ihe hxs]
    · intro hu
      simp only [hasUnsupportedT0Items, Bool.or_eq_false_iff] at hu
      obtain ⟨y, hy⟩ := hxo hu.1
      obtain ⟨ys, hys⟩ := iho hu.2
      exact ⟨y :: ys, by simp only [enc0Items, hy, hys]⟩

/-- Association-list analogue of `enc0Items_unsup`. -/
theorem enc0KVs_unsup (kvs : List (String × PyVal))
    (h : ∀ kv ∈ kvs,
      (hasUnsupportedT0 kv.2 = true → enc0 kv.2 = .error .unsupportedType) ∧
      (hasUnsupportedT0 kv.2 = false → ∃ r, enc0 kv.2 = .ok r)) :
    (hasUnsupportedT0KVs kvs = true → enc0KVs kvs = .error .unsupportedType) ∧
    (hasUnsupportedT0KVs kvs = false → ∃ rs, enc0KVs kvs = .ok rs) := by
  induction kvs with
  | nil => exact ⟨(fun hc => nomatch hc), fun _ => ⟨[], rfl⟩⟩
  | cons kv rest ih =>
    obtain ⟨k, v⟩ := kv
    obtain ⟨ihe, iho⟩ := ih (fun z hz => h z (by simp [hz]))
    obtain ⟨hxe, hxo⟩ := h (k, v) (by simp)
    constructor
    · intro hu
      simp only [hasUnsupportedT0KVs, Bool.or_eq_true] at hu
      cases hx : hasUnsupportedT0 v with
      | true =>
        simp only [enc0KVs, hxe hx]
      | false =>
        obtain ⟨w, hw⟩ := hxo hx
        have hrest : hasUnsupportedT0KVs rest = true := by
          rcases hu with hu | hu
          · rw [hx] at hu; cases hu
          · exact hu
        simp only [enc0KVs, hw, ihe hrest]
    · intro hu
      simp only [hasUnsupportedT0KVs, Bool.or_eq_false_iff] at hu
      obtain ⟨w, hw⟩ := hxo hu.1
      obtain ⟨rest2, hrest2⟩ := iho hu.2
      exact ⟨(k, w) :: rest2, by simp only [enc0KVs, hw, hrest2]⟩

/-- The encoding walk of the constructor transcoder fails with
`unsupportedType` exactly on the values that reach an unsupported runtime
type, and succeeds on all others. -/
theorem enc0_unsupported :
    ∀ v, (hasUnsupportedT0 v = true → enc0 v = .error .unsupportedType) ∧
      (hasUnsupportedT0 v = false → ∃ r, enc0 v = .ok r) := by
  refine PyVal.inductionOn _ ?_ ?_ ?_ ?_ ?_ ?_ ?_ ?_ ?_
  · exact fun s => ⟨(fun hc => nomatch hc), fun _ => ⟨.vstr s, rfl⟩⟩
  · exact fun n => ⟨(fun hc => nomatch hc), fun _ => ⟨.vint n, rfl⟩⟩
  · exact fun l => ⟨(fun hc => nomatch hc), fun _ => ⟨.vfloat l, rfl⟩⟩
  · exact fun b => ⟨fun _ => rfl, fun hc => nomatch hc⟩
  · exact ⟨fun _ => rfl, fun hc => nomatch hc⟩
  · intro xs ihs
    obtain ⟨he, ho⟩ := enc0Items_unsup xs ihs
    constructor
    · intro hu
      simp only [enc0, he hu]
    · intro hu
      obtain ⟨rs, hrs⟩ := ho hu
      exact ⟨.vlist rs, by simp only [enc0, hrs]⟩
  · intro kvs ihs
    obtain ⟨he, ho⟩ := enc0KVs_unsup kvs ihs
    constructor
    · intro hu
      simp only [enc0, he hu]
    · intro hu
      obtain ⟨rs, hrs⟩ := ho hu
      exact ⟨.vdict rs, by simp only [enc0, hrs]⟩
  · intro xs ihs
    obtain ⟨he, ho⟩ := enc0Items_unsup xs ihs
    constructor
    · intro hu
      simp only [enc0, he hu]
    · intro hu
      obtain ⟨rs, hrs⟩ := ho hu
      exact ⟨.vdict [("_type_", .vstr "tuple_as_list"), ("_data_", .vlist rs)],
        by simp only [enc0, hrs]⟩
  · exact fun c st _ => ⟨fun _ => rfl, fun hc => nomatch hc⟩

/-! ### Claim theorems -/

/-- C1 counterexample: the claim fails as stated.  The tuple
`( \x7b"_type_": "tuple_as_list", "_data_": []\x7d, )` — a value of the
registered type `tuple` — encodes successfully, but decoding the
resulting tree yields `((),)`, not the original tuple: the inner plain
mapping is reinterpreted as an envelope. -/
theorem C1_counterexample :
    encode_ transcoder0 5
        (.vtuple [.vdict [("_type_", .vstr "tuple_as_list"), ("_data_", .vlist [])]]) =
      .ok (.vdict [("_type_", .vstr "tuple_as_list"),
        ("_data_", .vlist [.vdict [("_type_", .vstr "tuple_as_list"), ("_data_", .vlist [])]])]) ∧
    decodeVal transcoder0
        (.vdict [("_type_", .vstr "tuple_as_list"),
          ("_data_", .vlist [.vdict [("_type_", .vstr "tuple_as_list"), ("_data_", .vlist [])]])]) =
      .ok (.vtuple [.vtuple []]) ∧
    PyVal.vtuple [.vtuple []] ≠
      .vtuple [.vdict [("_type_", .vstr "tuple_as_list"), ("_data_", .vlist [])]] := by
  refine ⟨rfl, rfl, ?_⟩
  intro h
  injection h with h
  injection h with h
  cases h

/-- C1 (amended): for every tuple whose members are supported values
containing no envelope-shaped mapping, the constructor transcoder encodes
the tuple to an envelope whose payload is a list, and decoding that tree
restores the tuple itself — a tuple, not a list. -/
theorem C1_roundtrip_tuple (xs : List PyVal) (h : safe (.vtuple xs) = true) :
    ∃ f rs,
      encode_ transcoder0 f (.vtuple xs) =
        .ok (.vdict [("_type_", .vstr "tuple_as_list"), ("_data_", .vlist rs)]) ∧
      decodeVal transcoder0
          (.vdict [("_type_", .vstr "tuple_as_list"), ("_data_", .vlist rs)]) =
        .ok (.vtuple xs) := by
  obtain ⟨r, hr, hd⟩ := enc0_roundtrip (.vtuple xs) h
  have hshape : ∃ rs, enc0Items xs = .ok rs ∧
      r = .vdict [("_type_", .vstr "tuple_as_list"), ("_data_", .vlist rs)] := by
    simp only [enc0] at hr
    cases h1 : enc0Items xs with
    | error e => rw [h1] at hr; cases hr
    | ok ys =>
      rw [h1] at hr
      injection hr with hr
      exact ⟨ys, rfl, hr.symm⟩
  obtain ⟨rs, _, hreq⟩ := hshape
  obtain ⟨f, hf⟩ := enc0_spec (.vtuple xs)
  refine ⟨f, rs, ?_, ?_⟩
  · have hf0 := hf 0
    rw [Nat.add_zero] at hf0
    rw [hf0, hr, hreq]
  · rw [← hreq]
    exact hd

/-- C1 witness: a concrete tuple of supported values round trips. -/
theorem C1_roundtrip_tuple_witness :
    safe (.vtuple [.vint 1, .vstr "a"]) = true ∧
    (∃ f rs,
      encode_ transcoder0 f (.vtuple [.vint 1, .vstr "a"]) =
        .ok (.vdict [("_type_", .vstr "tuple_as_list"), ("_data_", .vlist rs)]) ∧
      decodeVal transcoder0
          (.vdict [("_type_", .vstr "tuple_as_list"), ("_data_", .vlist rs)]) =
        .ok (.vtuple [.vint 1, .vstr "a"])) :=
  ⟨rfl, C1_roundtrip_tuple [.vint 1, .vstr "a"] rfl⟩

/-- C2 counterexample: the claim fails as stated.  The mapping
`\x7b"_type_": "tuple_as_list", "_data_": []\x7d` is built purely from
native scalars and containers and passes through encoding unchanged, yet
decoding returns the empty tuple, not the mapping. -/
theorem C2_counterexample :
    isJson (.vdict [("_type_", .vstr "tuple_as_list"), ("_data_", .vlist [])]) = true ∧
    encode_ transcoder0 2
        (.vdict [("_type_", .vstr "tuple_as_list"), ("_data_", .vlist [])]) =
      .ok (.vdict [("_type_", .vstr "tuple_as_list"), ("_data_", .vlist [])]) ∧
    decodeVal transcoder0
        (.vdict [("_type_", .vstr "tuple_as_list"), ("_data_", .vlist [])]) =
      .ok (.vtuple []) ∧
    PyVal.vtuple [] ≠
      .vdict [("_type_", .vstr "tuple_as_list"), ("_data_", .vlist [])] := by
  refine ⟨rfl, rfl, rfl, ?_⟩
  intro h
  cases h

/-- C2 (amended): for every value built purely from the source's native
scalar types (`str`, `int`, `float`) and native containers, in which no
mapping has exactly the envelope key set, the encoding walk returns the
value-tree unchanged (equal to the value) and decoding restores the value
exactly. -/
theorem C2_native_passthrough (v : PyVal) (h : nativeSafe v = true) :
    ∃ f, encode_ transcoder0 f v = .ok v ∧ decodeVal transcoder0 v = .ok v := by
  obtain ⟨he, hd⟩ := enc0_native v h
  obtain ⟨f, hf⟩ := enc0_spec v
  refine ⟨f, ?_, hd⟩
  have hf0 := hf 0
  rw [Nat.add_zero] at hf0
  rw [hf0, he]

/-- C2 witness: a concrete nested native value passes through unchanged. -/
theorem C2_native_passthrough_witness :
    nativeSafe (.vdict [("a", .vint 1),
      ("b", .vlist [.vstr "x", .vfloat "1.5"])]) = true ∧
    (∃ f, encode_ transcoder0 f (.vdict [("a", .vint 1),
        ("b", .vlist [.vstr "x", .vfloat "1.5"])]) =
      .ok (.vdict [("a", .vint 1), ("b", .vlist [.vstr "x", .vfloat "1.5"])]) ∧
      decodeVal transcoder0 (.vdict [("a", .vint 1),
        ("b", .vlist [.vstr "x", .vfloat "1.5"])]) =
      .ok (.vdict [("a", .vint 1), ("b", .vlist [.vstr "x", .vfloat "1.5"])])) :=
  ⟨rfl, C2_native_passthrough _ rfl⟩

/-- C3: decoding is bottom-up.  For any transcoder and any two registered
names, an envelope whose payload is a list containing a nested envelope
decodes so that the outer transcoding's `decode` receives the
already-reconstructed inner value (`tcI.decode p2`), not a raw tree, and
both levels decode in one pass. -/
theorem C3_nested_bottom_up (T : Transcoder) (nO nI : String)
    (tcO tcI : Transcoding) (p p2 : PyVal)
    (hO : T.lookupName nO = some tcO) (hI : T.lookupName nI = some tcI)
    (hp : decodeVal T p = .ok p2) :
    decodeVal T (.vdict [("_type_", .vstr nO),
        ("_data_", .vlist [.vdict [("_type_", .vstr nI), ("_data_", p)]])]) =
      .ok (tcO.decode (.vlist [tcI.decode p2])) := by
  have hin : decodeVal T (.vdict [("_type_", .vstr nI), ("_data_", p)]) =
      .ok (tcI.decode p2) := by
    rw [decode_envelope T nI p p2 hp, hI]
  have hitems : decodeItems T [.vdict [("_type_", .vstr nI), ("_data_", p)]] =
      .ok [tcI.decode p2] := by
    simp only [decodeItems, hin]
  have hlist : decodeVal T (.vlist [.vdict [("_type_", .vstr nI), ("_data_", p)]]) =
      .ok (.vlist [tcI.decode p2]) := by
    simp only [decodeVal, hitems]
  rw [decode_envelope T nO _ _ hlist, hO]

/-- C3 witness: a tuple envelope containing a `MyInt` envelope in its
payload decodes correctly at both levels. -/
theorem C3_nested_bottom_up_witness :
    transcoder1.lookupName "tuple_as_list" = some TupleAsList ∧
    transcoder1.lookupName "myint_as_int" = some CMyIntAsInt ∧
    decodeVal transcoder1 (.vint 5) = .ok (.vint 5) ∧
    decodeVal transcoder1 (.vdict [("_type_", .vstr "tuple_as_list"),
        ("_data_", .vlist [.vdict [("_type_", .vstr "myint_as_int"),
          ("_data_", .vint 5)]])]) =
      .ok (.vtuple [.vobj "MyInt" (.vint 5)]) := by
  refine ⟨rfl, rfl, rfl, ?_⟩
  exact C3_nested_bottom_up transcoder1 "tuple_as_list" "myint_as_int"
    TupleAsList CMyIntAsInt (.vint 5) (.vint 5) rfl rfl rfl

/-- C4: for every value, at sufficient fuel the byte-producing `encode`
fails with `unsupportedType` exactly when the walk reaches a value whose
runtime type is neither native nor registered, and otherwise produces
bytes; failure yields no bytes (the byte result is the error alone). -/
theorem C4_unsupported_iff (v : PyVal) :
    ∃ f, (encodeBytes transcoder0 f v = .error .unsupportedType ↔
        hasUnsupportedT0 v = true) ∧
      (hasUnsupportedT0 v = false → ∃ s, encodeBytes transcoder0 f v = .ok s) := by
  obtain ⟨f, hf⟩ := enc0_spec v
  have hfv : encode_ transcoder0 f v = enc0 v := by
    have hf0 := hf 0
    rw [Nat.add_zero] at hf0
    exact hf0
  obtain ⟨hu1, hu2⟩ := enc0_unsupported v
  refine ⟨f, ⟨?_, ?_⟩, ?_⟩
  · intro hb
    cases hx : hasUnsupportedT0 v with
    | true => rfl
    | false =>
      obtain ⟨r, hr⟩ := hu2 hx
      have hj := enc0_isJson v r hr
      have hds := dumpsVal_some r hj
      rw [Option.isSome_iff_exists] at hds
      obtain ⟨s, hs⟩ := hds
      unfold encodeBytes at hb
      rw [hfv, hr] at hb
      simp [hs] at hb
  · intro hx
    unfold encodeBytes
    rw [hfv, hu1 hx]
  · intro hx
    obtain ⟨r, hr⟩ := hu2 hx
    have hj := enc0_isJson v r hr
    have hds := dumpsVal_some r hj
    rw [Option.isSome_iff_exists] at hds
    obtain ⟨s, hs⟩ := hds
    refine ⟨s, ?_⟩
    unfold encodeBytes
    rw [hfv, hr]
    simp [hs]

/-- C4 witness: at a boolean the byte encoder fails with
`unsupportedType` and at a plain integer it produces bytes. -/
theorem C4_unsupported_iff_witness :
    hasUnsupportedT0 (.vbool true) = true ∧
    (∃ f, encodeBytes transcoder0 f (.vbool true) = .error .unsupportedType) ∧
    hasUnsupportedT0 (.vint 7) = false ∧
    (∃ f s, encodeBytes transcoder0 f (.vint 7) = .ok s) := by
  obtain ⟨f1, hiff1, _⟩ := C4_unsupported_iff (.vbool true)
  obtain ⟨f2, _, hok2⟩ := C4_unsupported_iff (.vint 7)
  obtain ⟨s, hs⟩ := hok2 rfl
  exact ⟨rfl, ⟨f1, hiff1.mpr rfl⟩, rfl, ⟨f2, s, hs⟩⟩

/-- C5: decoding a parsed tree that contains, anywhere the walk reaches,
an envelope whose text discriminator names no registered transcoding
fails with `unknownTypeName`. -/
theorem C5_unknown_name (T : Transcoder) (v : PyVal)
    (_hjson : isJson v = true) (hbad : containsBad T v = true) :
    decodeVal T v = .error .unknownTypeName := by
  cases h : decodeVal T v with
  | error e => rw [decode_err T v e h]
  | ok r => exact absurd h (containsBad_not_ok T v hbad r)

/-- C5 witness: a mapping holding an envelope with the unregistered name
`"nope"` fails to decode with `unknownTypeName`. -/
theorem C5_unknown_name_witness :
    isJson (.vdict [("outer",
      .vdict [("_type_", .vstr "nope"), ("_data_", .vint 1)])]) = true ∧
    containsBad transcoder0 (.vdict [("outer",
      .vdict [("_type_", .vstr "nope"), ("_data_", .vint 1)])]) = true ∧
    decodeVal transcoder0 (.vdict [("outer",
      .vdict [("_type_", .vstr "nope"), ("_data_", .vint 1)])]) =
      .error .unknownTypeName :=
  ⟨rfl, rfl, C5_unknown_name transcoder0 _ rfl rfl⟩

/-- C6: evaluation of the encoding walk at the failing inputs.  Booleans
and nulls are not accepted by `_encode` (their exact runtime types `bool`
and `NoneType` are in neither `self._encoders` nor `self.types`), at top
level or nested, even though the decoder treats both as native and can
produce them. -/
theorem C6_bool_none_rejected :
    encode_ transcoder0 1 (.vbool true) = .error .unsupportedType ∧
    encode_ transcoder0 1 .vnone = .error .unsupportedType ∧
    encode_ transcoder0 2 (.vlist [.vbool false]) = .error .unsupportedType ∧
    decodeVal transcoder0 (.vbool true) = .ok (.vbool true) ∧
    decodeVal transcoder0 .vnone = .ok .vnone :=
  ⟨rfl, rfl, rfl, rfl, rfl⟩

/-- C7: envelope recognition on decode is purely structural.  For any
mapping whose values decode, if its key set is exactly the envelope keys
then it is dispatched by name to a transcoding (a genuine application
mapping with those keys included); with any other key set the mapping is
returned with its already-decoded values. -/
theorem C7_structural_envelope (T : Transcoder)
    (kvs kvs2 : List (String × PyVal)) (h : decodeKVs T kvs = .ok kvs2) :
    (∀ s tc, isEnvelopeKeys kvs = true →
      dictGet kvs2 "_type_" = some (.vstr s) →
      T.lookupName s = some tc →
      decodeVal T (.vdict kvs) =
        .ok (tc.decode ((dictGet kvs2 "_data_").getD .vnone))) ∧
    (isEnvelopeKeys kvs = false →
      decodeVal T (.vdict kvs) = .ok (.vdict kvs2)) := by
  have hkeys := decodeKVs_keys T kvs kvs2 h
  constructor
  · intro s tc henv hget hname
    simp only [decodeVal, h]
    unfold decode_obj
    rw [if_pos (by rw [isEnvelopeKeys_congr hkeys, henv])]
    simp [hget, hname]
  · intro henv
    simp only [decodeVal, h]
    unfold decode_obj
    rw [if_neg (by rw [isEnvelopeKeys_congr hkeys, henv]; exact Bool.false_ne_true)]

/-- C7 witness: the two-key mapping with the registered name decodes as
an envelope (to a tuple); a mapping with other keys is returned as a
mapping. -/
theorem C7_structural_envelope_witness :
    decodeKVs transcoder0
        [("_type_", .vstr "tuple_as_list"), ("_data_", .vlist [.vint 1])] =
      .ok [("_type_", .vstr "tuple_as_list"), ("_data_", .vlist [.vint 1])] ∧
    decodeVal transcoder0 (.vdict
        [("_type_", .vstr "tuple_as_list"), ("_data_", .vlist [.vint 1])]) =
      .ok (.vtuple [.vint 1]) ∧
    decodeVal transcoder0 (.vdict [("a", .vint 1), ("b", .vint 2)]) =
      .ok (.vdict [("a", .vint 1), ("b", .vint 2)]) := by
  refine ⟨rfl, ?_, ?_⟩
  · exact (C7_structural_envelope transcoder0
      [("_type_", .vstr "tuple_as_list"), ("_data_", .vlist [.vint 1])]
      [("_type_", .vstr "tuple_as_list"), ("_data_", .vlist [.vint 1])] rfl).1
      "tuple_as_list" TupleAsList rfl rfl rfl
  · exact (C7_structural_envelope transcoder0
      [("a", .vint 1), ("b", .vint 2)]
      [("a", .vint 1), ("b", .vint 2)] rfl).2 rfl

/-- C8: registering a transcoding whose type or name is already present
fails with the matching duplicate error and leaves the registry unchanged
(the first registration stays; no overwrite). -/
theorem C8_duplicate_register (T : Transcoder) (tc : Transcoding)
    (h : (T.lookupType tc.type).isSome = true ∨
      (T.lookupName tc.name).isSome = true) :
    (T.registerRun tc).1 = T ∧
      ∃ e, (T.registerRun tc).2 = some e ∧
        (e = TcError.duplicateType ∨ e = TcError.duplicateName) := by
  unfold Transcoder.registerRun
  by_cases h1 : (T.lookupType tc.type).isSome = true
  · rw [if_pos h1]
    exact ⟨rfl, .duplicateType, rfl, Or.inl rfl⟩
  · rw [if_neg h1]
    have h2 : (T.lookupName tc.name).isSome = true := by
      rcases h with h | h
      · exact absurd h h1
      · exact h
    rw [if_pos h2]
    exact ⟨rfl, .duplicateName, rfl, Or.inr rfl⟩

/-- C8 witness: registering `TupleAsList` a second time on the
constructor registry fails with `duplicateType` and leaves the registry
as it was. -/
theorem C8_duplicate_register_witness :
    ((transcoder0.lookupType TupleAsList.type).isSome = true ∨
      (transcoder0.lookupName TupleAsList.name).isSome = true) ∧
    (transcoder0.registerRun TupleAsList).1 = transcoder0 ∧
    ∃ e, (transcoder0.registerRun TupleAsList).2 = some e ∧
      (e = TcError.duplicateType ∨ e = TcError.duplicateName) :=
  ⟨Or.inl rfl, C8_duplicate_register transcoder0 TupleAsList (Or.inl rfl)⟩

/-- Successful byte production decomposes into a successful walk and a
successful serialization. -/
theorem encodeBytes_ok_elim (T : Transcoder) (f : Nat) (v : PyVal) (s : String)
    (h : encodeBytes T f v = .ok s) :
    ∃ t, encode_ T f v = .ok t ∧ dumpsVal t = some s := by
  unfold encodeBytes at h
  split at h
  · cases h
  · rename_i tree heq
    split at h
    · cases h
    · rename_i s2 heq2
      injection h with h
      exact ⟨tree, heq, by rw [heq2, h]⟩

/-- C9: `encode` is deterministic for a fixed registry — any two byte
results for the same value (at any two sufficient fuels, i.e. any two
calls) are identical byte sequences. -/
theorem C9_encode_deterministic (T : Transcoder) (v : PyVal) (s1 s2 : String)
    (h1 : ∃ f, encodeBytes T f v = .ok s1)
    (h2 : ∃ f, encodeBytes T f v = .ok s2) :
    s1 = s2 := by
  obtain ⟨f1, h1⟩ := h1
  obtain ⟨f2, h2⟩ := h2
  obtain ⟨t1, he1, hd1⟩ := encodeBytes_ok_elim T f1 v s1 h1
  obtain ⟨t2, he2, hd2⟩ := encodeBytes_ok_elim T f2 v s2 h2
  have ht : (Except.ok t1 : Except TcError PyVal) = .ok t2 :=
    encode_det T he1 he2 (fun hc => Except.noConfusion hc)
      (fun hc => Except.noConfusion hc)
  injection ht with ht
  rw [ht] at hd1
  rw [hd1] at hd2
  injection hd2

/-- C9 witness: two calls at different fuels produce the same bytes for a
concrete value. -/
theorem C9_encode_deterministic_witness :
    encodeBytes transcoder0 4 (.vtuple [.vint 1]) =
      .ok "\x7b\"_type_\":\"tuple_as_list\",\"_data_\":[1]\x7d" ∧
    encodeBytes transcoder0 9 (.vtuple [.vint 1]) =
      .ok "\x7b\"_type_\":\"tuple_as_list\",\"_data_\":[1]\x7d" ∧
    "\x7b\"_type_\":\"tuple_as_list\",\"_data_\":[1]\x7d" =
      "\x7b\"_type_\":\"tuple_as_list\",\"_data_\":[1]\x7d" :=
  ⟨rfl, rfl, C9_encode_deterministic transcoder0 (.vtuple [.vint 1]) _ _
    ⟨4, rfl⟩ ⟨9, rfl⟩⟩

/-- C10: encoder dispatch is by exact runtime type, not subtype.  A value
of the strict `int` subclass `MyInt` is not treated as a native `int`:
with no transcoding for `MyInt` registered, encoding fails with
`unsupportedType`; with `CMyIntAsInt` registered, it is encoded through
that transcoding's envelope and decodes back to a `MyInt`. -/
theorem C10_exact_type_dispatch (n : Int) :
    encode_ transcoder0 2 (.vobj "MyInt" (.vint n)) = .error .unsupportedType ∧
    encode_ transcoder1 3 (.vobj "MyInt" (.vint n)) =
      .ok (.vdict [("_type_", .vstr "myint_as_int"), ("_data_", .vint n)]) ∧
    decodeVal transcoder1
        (.vdict [("_type_", .vstr "myint_as_int"), ("_data_", .vint n)]) =
      .ok (.vobj "MyInt" (.vint n)) :=
  ⟨rfl, rfl, rfl⟩
